import Mathlib

/-!
Verification of the image-generation pipeline of the Tekspot LinkedIn
automation repository (`src/services/image_gen.py`, `src/config.py`).

The Python code is shallowly embedded: pure string manipulation becomes
Lean string functions; every effectful step (directory creation,
directory listing, optional-dependency imports, the remote Gemini call,
image decode/encode, file persistence) is an oracle recorded in a
`World` value, and an exception that the Python code would let escape is
represented by the `PyResult.raised` constructor, while exceptions the
code catches are threaded as `Except` values and converted to the
two-armed `(path?, error?)` result exactly where the source converts
them.
-/

namespace ImageGen

/-- Whitespace characters recognised by Python's `str.split()` / `str.strip()`
(ASCII subset, which is what the repository's inputs use). -/
def pyIsSpace (c : Char) : Bool :=
  c = ' ' || c = '\t' || c = '\n' || c = '\x0d' || c = '\x0b' || c = '\x0c'

/-- Python `str.strip()`: drop leading and trailing whitespace. -/
def pyStrip (s : String) : String :=
  String.mk (((s.data.dropWhile pyIsSpace).reverse.dropWhile pyIsSpace).reverse)

/-- Helper for `pySplit`: walk the characters, accumulating the current
token (in reverse) and flushing it at each whitespace run. -/
def splitAux : List Char → List Char → List String
  | [], [] => []
  | [], cur => [String.mk cur.reverse]
  | c :: cs, cur =>
    if pyIsSpace c then
      match cur with
      | [] => splitAux cs []
      | _ :: _ => String.mk cur.reverse :: splitAux cs []
    else splitAux cs (c :: cur)

/-- Python `str.split()` with no argument: split on whitespace runs,
never producing empty tokens. -/
def pySplit (s : String) : List String :=
  splitAux s.data []

/-- Python `" ".join(words)`. -/
def joinSpace : List String → String
  | [] => ""
  | [t] => t
  | t :: ts => t ++ " " ++ joinSpace ts

/-- Headline derivation, lines 72-79 of `image_gen.py`: take the first 10
words of a non-blank `hero_copy`, else fall back to the first 8 words of
`topic`. -/
def deriveHeadline (topic : String) (hero_copy : Option String) : String :=
  let h :=
    match hero_copy with
    | some hc =>
      if hc ≠ "" ∧ pyStrip hc ≠ "" then
        joinSpace ((pySplit (pyStrip hc)).take 10)
      else ""
    | none => ""
  if h = "" then joinSpace ((pySplit (pyStrip topic)).take 8) else h

/-- The fixed branded template string (`TEKSPOT_TEMPLATE` in the source). -/
def TEKSPOT_TEMPLATE : String :=
  "Professional LinkedIn post graphic for TEKSPOT GLOBAL SOLUTIONS. " ++
  "Match the reference image style exactly: " ++
  "Smooth gradient background from deep purple (left) to teal/light green (right). " ++
  "Include TEKSPOT GLOBAL SOLUTIONS logo in top-left corner (white text, globe icon, clean sans-serif). " ++
  "Minimal text only: one short headline, 5-10 words max. No extra copy, bullet points, or long sentences. " ++
  "Include topic-relevant imagery: visuals, icons, or metaphors that match the theme (e.g., talent/HR: people, teams, handshakes, workforce; tech/IT: computers, digital, recruitment; skills: learning, growth). " ++
  "Left side: headline text. Right side or center: relevant visual element tied to the topic. Clean, corporate, high-end aesthetic. 16:9 aspect ratio."

/-- Template selection, line 81 of the source: a non-blank
`template_description` overrides the branded default. -/
def selectTemplate (template_description : Option String) : String :=
  match template_description with
  | some td => if td ≠ "" ∧ pyStrip td ≠ "" then pyStrip td else TEKSPOT_TEMPLATE
  | none => TEKSPOT_TEMPLATE

/-- Prompt assembly, lines 83-89 of the source.  The `style` parameter is
in scope there, exactly as in the Python function, and does not occur in
the f-string. -/
def assembledPrompt (topic : String) (style : String)
    (template_description : Option String) (hero_copy : Option String) : String :=
  let headline := deriveHeadline topic hero_copy
  let template := selectTemplate template_description
  "Create a new image following this exact template: " ++ template ++
  " Topic/theme: " ++ topic ++
  ". Display this headline text (bold, white, left side): \"" ++ headline ++
  "\". Include relevant imagery on the right or center that visually represents the topic — e.g., for talent acquisition: professionals, teams, hiring; for workforce/skills: learning, growth, people; for IT recruitment: tech, digital. " ++
  "No other text. Match the reference images\x27 layout, colors, and Tekspot branding. Suitable for LinkedIn company post."

/-- Characters kept unchanged by the filename sanitizer, line 153:
`c.isalnum() or c in " -_"` (alphanumeric in the ASCII sense). -/
def pyKeepChar (c : Char) : Bool :=
  c.isAlphanum || c = ' ' || c = '-' || c = '_'

/-- Filename sanitization, lines 152-154: truncate the topic to its first
50 characters, then replace every character that is not alphanumeric,
space, hyphen or underscore with an underscore. -/
def sanitizeTopic (topic : String) : String :=
  String.mk ((topic.data.take 50).map fun c => if pyKeepChar c then c else '_')

instance {ε α : Type} [DecidableEq ε] [DecidableEq α] : DecidableEq (Except ε α) := fun x y =>
  match x, y with
  | .error e, .error f =>
    if h : e = f then .isTrue (by rw [h]) else .isFalse (by intro hh; cases hh; exact h rfl)
  | .ok a, .ok b =>
    if h : a = b then .isTrue (by rw [h]) else .isFalse (by intro hh; cases hh; exact h rfl)
  | .error _, .ok _ => .isFalse (by intro h; cases h)
  | .ok _, .error _ => .isFalse (by intro h; cases h)

/-- Decoded reference images are opaque handles produced by the image
library; only their identity matters to the pipeline. -/
abbrev RGBImage := Nat

/-- A directory entry as seen by `Path.iterdir` plus the results of the
effectful operations the loader performs on it: its `st_mtime` and the
outcome of `Image.open(f).convert("RGB")` (which may raise). -/
structure FileEntry where
  name : String
  mtime : Int
  decodesTo : Except String RGBImage
  deriving Repr, DecidableEq

/-- State of a reference-image directory: absent (`exists()` is false),
present with a listing, or raising an OSError during `iterdir`/`stat`
(those calls are not wrapped in any try in the source). -/
inductive RefDirState where
  | absent
  | present (entries : List FileEntry)
  | raises (e : String)
  deriving Repr

/-- Python `Path.suffix`: the substring from the last dot of the name,
empty when there is no dot, when the only dot leads the name, or when
the dot is the final character. -/
def pySuffix (name : String) : String :=
  let cs := name.data
  let idx := cs.reverse.indexOf '.'
  if 0 < idx ∧ idx < cs.length - 1 then
    String.mk (cs.drop (cs.length - 1 - idx))
  else ""

/-- Python `str.lower()` (ASCII case folding, character by character). -/
def pyLower (s : String) : String := String.mk (s.data.map Char.toLower)

/-- The supported reference-image extensions, line 38 of the source
(`f.suffix.lower() in supported`). -/
def supportedExt (name : String) : Bool :=
  let l := pyLower (pySuffix name)
  l = ".jpg" || l = ".jpeg" || l = ".png" || l = ".webp"

/-- Insert an entry into a list already sorted by descending `mtime`,
after every entry with a strictly greater `mtime` (stable, like Python's
`sorted(..., reverse=True)`). -/
def insertDesc (x : FileEntry) : List FileEntry → List FileEntry
  | [] => [x]
  | g :: gs => if x.mtime < g.mtime then g :: insertDesc x gs else x :: g :: gs

/-- Stable sort by descending modification time, modelling
`sorted(files, key=lambda x: x.stat().st_mtime, reverse=True)`. -/
def sortByMtimeDesc : List FileEntry → List FileEntry
  | [] => []
  | x :: xs => insertDesc x (sortByMtimeDesc xs)

/-- Reference-image loading, lines 30-51 of the source
(`_load_reference_images`).  `pilAvailable` models whether
`from PIL import Image` succeeds; when it fails the function returns `[]`
before ever listing the directory, so a raising directory can only
surface once PIL is importable. -/
def loadReferenceImages (dir : RefDirState) (pilAvailable : Bool)
    (max_count : Nat) : Except String (List RGBImage) :=
  match dir with
  | .absent => .ok []
  | .raises e => if pilAvailable then .error e else .ok []
  | .present entries =>
    if pilAvailable then
      let files := sortByMtimeDesc (entries.filter fun f => supportedExt f.name)
      .ok ((files.take max_count).filterMap fun f => f.decodesTo.toOption)
    else .ok []

/-- A Python value that is either `bytes` or `str`, as found in the
`data` / `image_bytes` fields of an inline-data blob. -/
inductive PyData where
  | bytes (b : List Nat)
  | str (s : String)
  deriving Repr, DecidableEq

/-- Python truthiness of a bytes-or-str value. -/
def pyDataTruthy : PyData → Bool
  | .bytes b => !b.isEmpty
  | .str s => s ≠ ""

/-- Python truthiness of an optional bytes-or-str value (`None` is falsy). -/
def pyTruthy : Option PyData → Bool
  | none => false
  | some d => pyDataTruthy d

/-- An inline-data blob: `getattr(blob, "data", None)` and
`getattr(blob, "image_bytes", None)`, with `none` for an absent or
`None`-valued attribute. -/
structure Blob where
  data : Option PyData
  image_bytes : Option PyData
  deriving Repr, DecidableEq

/-- One response part.  `as_image` is `none` when the part has no
`as_image` attribute; otherwise it carries the outcome of
`part.as_image(); img.save(buf, "PNG"); buf.getvalue()` — PNG bytes on
success, or the exception message when any of those calls raises.
`inline_data` collapses an absent attribute and a falsy value to
`none`, matching `hasattr(part, "inline_data") and part.inline_data`. -/
structure Part where
  as_image : Option (Except String (List Nat))
  inline_data : Option Blob
  deriving Repr, DecidableEq

/-- The `content` object of a response candidate; `parts` is `none` when
the attribute is missing. -/
structure Content where
  parts : Option (List Part)
  deriving Repr, DecidableEq

/-- A response candidate; `content` is `none` when `hasattr(cand,
"content")` fails (including a `None`-valued attribute, for which the
subsequent `hasattr(cand.content, "parts")` is false as well). -/
structure Candidate where
  content : Option Content
  deriving Repr, DecidableEq

/-- The remote response: `parts` is `some ps` exactly when
`hasattr(response, "parts")` holds, and `candidates` is `some cs`
exactly when `hasattr(response, "candidates")` holds. -/
structure Response where
  parts : Option (List Part)
  candidates : Option (List Candidate)
  deriving Repr, DecidableEq

/-- Value of a base64-alphabet character. -/
def b64Val (c : Char) : Option Nat :=
  if 'A' ≤ c ∧ c ≤ 'Z' then some (c.toNat - 'A'.toNat)
  else if 'a' ≤ c ∧ c ≤ 'z' then some (c.toNat - 'a'.toNat + 26)
  else if '0' ≤ c ∧ c ≤ '9' then some (c.toNat - '0'.toNat + 52)
  else if c = '+' then some 62
  else if c = '/' then some 63
  else none

/-- Decode base64 quartets into bytes, treating a padding character as a
terminator, as `binascii` does after discarding foreign characters. -/
def b64Groups : List Char → List Nat
  | a :: b :: c :: d :: rest =>
    match b64Val a, b64Val b with
    | some va, some vb =>
      let b1 := va * 4 + vb / 16
      match b64Val c with
      | some vc =>
        let b2 := (vb % 16) * 16 + vc / 4
        match b64Val d with
        | some vd => b1 :: b2 :: ((vc % 4) * 64 + vd) :: b64Groups rest
        | none => [b1, b2]
      | none => [b1]
    | _, _ => []
  | _ => []

/-- Python `base64.b64decode` on a text payload: characters outside the
alphabet and padding are discarded, and a total length that is not a
multiple of four raises `binascii.Error`. -/
def b64decode (s : String) : Except String (List Nat) :=
  let cs := s.data.filter fun c => (b64Val c).isSome || c = '='
  if cs.length % 4 = 0 then .ok (b64Groups cs)
  else .error "Invalid base64-encoded string: number of data characters cannot be 1 more than a multiple of 4"

/-- Line 146 of the source: raw `bytes` pass through, text is
base64-decoded (which may raise). -/
def decodeData : PyData → Except String (List Nat)
  | .bytes b => .ok b
  | .str s => b64decode s

/-- The part-scanning loop, lines 132-147 of the source: for each part,
a successful `as_image` breaks with its bytes; a raised `as_image` (or a
missing accessor) falls through to the inline-data check, which breaks
with the (possibly base64-decoded) payload whenever the selected field
is truthy; otherwise the loop advances.  An error is a raised exception
that the surrounding `try` converts to an error result. -/
def extractLoop : List Part → Except String (Option (List Nat))
  | [] => .ok none
  | part :: rest =>
    match part.as_image with
    | some (.ok b) => .ok (some b)
    | _ =>
      match part.inline_data with
      | some blob =>
        match (if pyTruthy blob.data then blob.data else blob.image_bytes) with
        | some d =>
          if pyDataTruthy d then (decodeData d).map some
          else extractLoop rest
        | none => extractLoop rest
      | none => extractLoop rest

/-- Shape selection, lines 124-130 of the source: a flat `parts`
attribute wins outright; only in its absence are the first candidate's
content parts consulted; every failed probe leaves the empty list. -/
def partsOf (resp : Response) : List Part :=
  match resp.parts with
  | some ps => ps
  | none =>
    match resp.candidates with
    | some (cand :: _) =>
      match cand.content with
      | some con =>
        match con.parts with
        | some ps => ps
        | none => []
      | none => []
    | _ => []

/-- Stated from the specification, for comparison with `extractLoop`:
the outcome of trying the two extraction strategies on a single part,
image-accessor first, then inline data. -/
def specTryPart (p : Part) : Except String (Option (List Nat)) :=
  match p.as_image with
  | some (.ok b) => .ok (some b)
  | _ =>
    match p.inline_data with
    | some blob =>
      match (if pyTruthy blob.data then blob.data else blob.image_bytes) with
      | some d => if pyDataTruthy d then (decodeData d).map some else .ok none
      | none => .ok none
    | none => .ok none

/-- Stated from the specification: scan the parts in order and stop at
the first part on which a strategy fires. -/
def specSearch : List Part → Except String (Option (List Nat))
  | [] => .ok none
  | p :: ps =>
    match specTryPart p with
    | .error e => .error e
    | .ok (some b) => .ok (some b)
    | .ok none => specSearch ps

/-- Output directory (`OUTPUT_DIR` in `config.py`, `BASE_DIR/output`). -/
def OUTPUT_DIR : String := "output"

/-- Default reference-image directory (`IMAGES_DIR` in `config.py`). -/
def IMAGES_DIR : String := "images"

/-- Outcome of running a Python call: a normal return, or an exception
that escaped to the caller. -/
inductive PyResult (α : Type) where
  | ok (a : α)
  | raised (e : String)
  deriving Repr, DecidableEq

/-- Externally visible side effects performed by one pipeline call, in
order: directory bootstrap, reference-directory access
(`exists`/`iterdir`/`stat`), the remote Gemini call, and the final file
write. -/
inductive Effect where
  | ensureDirs
  | refDirAccess
  | remoteCall
  | writeFile (path : String)
  deriving Repr, DecidableEq

/-- Oracles for every effectful step of one `generate_post_image` call:
the loaded configuration, the outcomes of directory creation, imports,
client construction, the remote call (as a function of the prompt and
reference images actually sent), the current Unix time, and the final
decode-and-save of the extracted bytes. -/
structure World where
  apiKey : String
  ensureDirsResult : Except String Unit
  pilAvailable : Bool
  genaiAvailable : Bool
  dirs : String → RefDirState
  clientInit : Except String Unit
  remote : String → List RGBImage → Except String Response
  timestamp : Nat
  persist : List Nat → Except String Unit

/-- Python truthiness of the `image_bytes` local after the scanning
loop: `None` and empty bytes are both falsy. -/
def bytesTruthy : Option (List Nat) → Bool
  | none => false
  | some b => !b.isEmpty

/-- The destination path composed at lines 152-155 of the source. -/
def outPath (topic : String) (timestamp : Nat) : String :=
  OUTPUT_DIR ++ "/linkedin_image_" ++ sanitizeTopic topic ++ "_" ++
    toString timestamp ++ ".png"

/-- Tail of the `try` block, lines 122-159 of the source: scan the parts,
fail with the no-image message when nothing usable was extracted, else
compose the output path and decode-and-save the bytes there.  Returns
the call result together with the suffix of the effect trace. -/
def decodePhase (parts : List Part) (topic : String) (w : World) :
    PyResult (Option String × Option String) × List Effect :=
  match extractLoop parts with
  | .error e => (.ok (none, some e), [])
  | .ok image_bytes =>
    if bytesTruthy image_bytes then
      let fpath := outPath topic w.timestamp
      match w.persist (image_bytes.getD []) with
      | .error e => (.ok (none, some e), [.writeFile fpath])
      | .ok _ => (.ok (some fpath, none), [.writeFile fpath])
    else (.ok (none, some "No image in Gemini response"), [])

set_option linter.unusedVariables false in
/-- The pipeline, lines 54-162 of `image_gen.py`, with its original
signature.  Returns the `(path?, error?)` pair — or a propagated
exception for the steps the source leaves outside any `try` — together
with the trace of external effects performed. -/
def generate_post_image (topic : String) (style : String)
    (template_description : Option String) (hero_copy : Option String)
    (reference_images_dir : Option String) (w : World) :
    PyResult (Option String × Option String) × List Effect :=
  if w.apiKey = "" then
    (.ok (none, some "GEMINI_API_KEY is not set in .env"), [])
  else
    match w.ensureDirsResult with
    | .error e => (.raised e, [.ensureDirs])
    | .ok _ =>
      let prompt := assembledPrompt topic style template_description hero_copy
      let ref_dir := reference_images_dir.getD IMAGES_DIR
      match loadReferenceImages (w.dirs ref_dir) w.pilAvailable 2 with
      | .error e => (.raised e, [.ensureDirs, .refDirAccess])
      | .ok ref_images =>
        if w.genaiAvailable && w.pilAvailable then
          match w.clientInit with
          | .error e => (.ok (none, some e), [.ensureDirs, .refDirAccess])
          | .ok _ =>
            match w.remote prompt ref_images with
            | .error e => (.ok (none, some e), [.ensureDirs, .refDirAccess, .remoteCall])
            | .ok response =>
              let tail := decodePhase (partsOf response) topic w
              (tail.1, [.ensureDirs, .refDirAccess, .remoteCall] ++ tail.2)
        else
          (.ok (none, some "Install google-genai: pip install google-genai"),
            [.ensureDirs, .refDirAccess])

/-- Hypotheses pinning one call down to the point where the remote
response is in hand: a configured key, successful bootstrap, a
successful reference-image load yielding `refs`, importable
dependencies, a constructed client, and a remote call answering
`resp`. -/
def reachesRemote (topic style : String)
    (template_description hero_copy reference_images_dir : Option String)
    (w : World) (refs : List RGBImage) (resp : Response) : Prop :=
  w.apiKey ≠ "" ∧
  w.ensureDirsResult = .ok () ∧
  loadReferenceImages (w.dirs (reference_images_dir.getD IMAGES_DIR)) w.pilAvailable 2 = .ok refs ∧
  w.genaiAvailable = true ∧
  w.pilAvailable = true ∧
  w.clientInit = .ok () ∧
  w.remote (assembledPrompt topic style template_description hero_copy) refs = .ok resp

/-! Concrete data used to exercise the theorems on closed inputs. -/

/-- A part whose image accessor succeeds with PNG-header bytes. -/
def imgPart : Part := ⟨some (.ok [137, 80, 78, 71]), none⟩

/-- A part carrying raw inline bytes and no image accessor. -/
def inlinePart : Part := ⟨none, some ⟨some (.bytes [1, 2, 3]), none⟩⟩

/-- A part with neither an image accessor nor inline data. -/
def deadPart : Part := ⟨none, none⟩

/-- A response with one image-bearing flat part. -/
def respFlat : Response := ⟨some [imgPart], none⟩

/-- A response with no image-bearing part at all. -/
def respNoImage : Response := ⟨some [deadPart], none⟩

/-- A response with an empty flat parts list but an image-bearing part
nested under its first candidate. -/
def respEmptyFlat : Response := ⟨some [], some [⟨some ⟨some [imgPart]⟩⟩]⟩

/-- A world in which every effectful step succeeds and the remote call
answers `respFlat`. -/
def wHappy : World :=
  ⟨"key", .ok (), true, true, fun _ => .absent, .ok (),
    fun _ _ => .ok respFlat, 1700000000, fun _ => .ok ()⟩

/-- A world whose remote call answers a response with no image parts. -/
def wNoImg : World := { wHappy with remote := fun _ _ => .ok respNoImage }

/-- A world whose remote call answers `respEmptyFlat`. -/
def wNested : World := { wHappy with remote := fun _ _ => .ok respEmptyFlat }

/-- A world in which `ensure_dirs` raises a `PermissionError`. -/
def wBootFail : World :=
  { wHappy with ensureDirsResult := .error "PermissionError: [Errno 13] Permission denied: \x27output\x27" }

/-- A world with no configured API key. -/
def wNoKey : World := { wHappy with apiKey := "" }

/-- Directory entry: a decodable PNG, most recent. -/
def entA : FileEntry := ⟨"a.png", 10, .ok 1⟩

/-- Directory entry: a JPEG whose decode raises. -/
def entB : FileEntry := ⟨"b.jpg", 5, .error "cannot identify image file"⟩

/-- Directory entry: an unsupported extension with the newest mtime. -/
def entC : FileEntry := ⟨"c.txt", 20, .ok 3⟩

/-! Helper lemmas. -/

/-- The tail of the `try` block always produces a returned pair, never a
propagated exception. -/
theorem decodePhase_ok (parts : List Part) (topic : String) (w : World) :
    ∃ r, (decodePhase parts topic w).1 = .ok r := by
  unfold decodePhase
  rcases extractLoop parts with e | ib
  · exact ⟨_, rfl⟩
  · cases hb : bytesTruthy ib
    · simp only [hb, Bool.false_eq_true, if_false]
      exact ⟨_, rfl⟩
    · simp only [hb, if_true]
      rcases w.persist (ib.getD []) with e | u
      · exact ⟨_, rfl⟩
      · exact ⟨_, rfl⟩

/-- Once the remote response is in hand, the call result is whatever the
decode phase yields on the selected parts. -/
theorem gen_after_remote (topic style : String)
    (td hc rd : Option String) (w : World) (refs : List RGBImage) (resp : Response)
    (h : reachesRemote topic style td hc rd w refs resp) :
    (generate_post_image topic style td hc rd w).1 =
      (decodePhase (partsOf resp) topic w).1 := by
  obtain ⟨h1, h2, h3, h4, h5, h6, h7⟩ := h
  rw [h5] at h3
  simp only [generate_post_image, h1, h2, h3, h4, h5, h6, h7, if_false,
    Bool.and_self, if_true]

/-- Every normally returned pair is either an error pair or the success
pair built from the sanitized topic and the current timestamp. -/
theorem gen_ok_shape (topic style : String) (td hc rd : Option String)
    (w : World) (r : Option String × Option String)
    (h : (generate_post_image topic style td hc rd w).1 = .ok r) :
    (∃ m, r = (none, some m)) ∨ r = (some (outPath topic w.timestamp), none) := by
  simp only [generate_post_image, decodePhase] at h
  repeat' split at h
  all_goals injection h
  all_goals rename_i h'
  all_goals first
    | exact Or.inl ⟨_, h'.symm⟩
    | exact Or.inr h'.symm

/-- Claim C1, as stated, is false: when the directory bootstrap
(`ensure_dirs()`, line 70, outside the `try` block) raises, the
exception propagates to the caller instead of surfacing as the second
element of the returned pair. -/
theorem c1_counterexample :
    (generate_post_image "AI hiring" "professional" none none none wBootFail).1 =
      .raised "PermissionError: [Errno 13] Permission denied: \x27output\x27" := rfl

/-- Claim C1 (amended): provided the directory bootstrap and the
reference-directory listing do not raise — the two steps the source
leaves outside every `try` — the pipeline never propagates an exception:
every other failure surfaces as a returned pair. -/
theorem c1_no_raise_after_bootstrap (topic style : String)
    (td hc rd : Option String) (w : World)
    (hBoot : w.ensureDirsResult = .ok ())
    (hRefs : ∀ e, loadReferenceImages (w.dirs (rd.getD IMAGES_DIR)) w.pilAvailable 2 ≠ .error e) :
    ∃ r, (generate_post_image topic style td hc rd w).1 = .ok r := by
  simp only [generate_post_image]
  split
  · exact ⟨_, rfl⟩
  · split
    · next e he => rw [he] at hBoot; cases hBoot
    · split
      · next e he => exact absurd he (hRefs e)
      · split
        · split
          · exact ⟨_, rfl⟩
          · split
            · exact ⟨_, rfl⟩
            · exact decodePhase_ok _ _ _
        · exact ⟨_, rfl⟩

/-- Witness for C1 (amended) at a concrete world in which bootstrap and
listing succeed. -/
theorem c1_witness :
    ∃ r, (generate_post_image "AI hiring" "professional" none none none wHappy).1 = .ok r :=
  c1_no_raise_after_bootstrap "AI hiring" "professional" none none none wHappy rfl
    (fun _ h => Except.noConfusion h)

/-- Claim C2: with an empty API key the pipeline returns the
configuration error immediately, performing no effect at all. -/
theorem c2_empty_key_immediate (topic style : String)
    (td hc rd : Option String) (w : World) (h : w.apiKey = "") :
    generate_post_image topic style td hc rd w =
      (.ok (none, some "GEMINI_API_KEY is not set in .env"), []) := by
  simp [generate_post_image, h]

/-- Witness for C2 at a concrete keyless world. -/
theorem c2_witness :
    generate_post_image "AI hiring" "professional" none none none wNoKey =
      (.ok (none, some "GEMINI_API_KEY is not set in .env"), []) :=
  c2_empty_key_immediate "AI hiring" "professional" none none none wNoKey rfl

/-- Claim C9: two calls differing only in `style` assemble the same
prompt and return the same result (and the same effect trace). -/
theorem c9_style_unused (topic s1 s2 : String)
    (td hc rd : Option String) (w : World) :
    assembledPrompt topic s1 td hc = assembledPrompt topic s2 td hc ∧
    generate_post_image topic s1 td hc rd w = generate_post_image topic s2 td hc rd w :=
  ⟨rfl, rfl⟩

/-- Claim C7: every returned pair has exactly one populated arm. -/
theorem c7_one_arm_populated (topic style : String) (td hc rd : Option String)
    (w : World) (r : Option String × Option String)
    (h : (generate_post_image topic style td hc rd w).1 = .ok r) :
    (r.1.isSome = true ∧ r.2 = none) ∨ (r.1 = none ∧ r.2.isSome = true) := by
  rcases gen_ok_shape topic style td hc rd w r h with ⟨m, rfl⟩ | rfl
  · exact Or.inr ⟨rfl, rfl⟩
  · exact Or.inl ⟨rfl, rfl⟩

/-- Witness for C7 at a concrete successful run. -/
theorem c7_witness :
    (((some (outPath "AI hiring" wHappy.timestamp) : Option String).isSome = true ∧
        (none : Option String) = none) ∨
      ((some (outPath "AI hiring" wHappy.timestamp) : Option String) = none ∧
        (none : Option String).isSome = true)) :=
  c7_one_arm_populated "AI hiring" "professional" none none none wHappy
    (some (outPath "AI hiring" wHappy.timestamp), none) rfl

/-- Claim C6: a successful call returns the path
`output/linkedin_image_<sanitized-topic>_<timestamp>.png`, the sanitized
token holds only alphanumerics, spaces, hyphens and underscores, is at
most 50 characters long, and each of its characters is the
corresponding topic character when allowed and an underscore
otherwise. -/
theorem c6_output_path (topic style : String) (td hc rd : Option String)
    (w : World) (p : String) (err : Option String)
    (h : (generate_post_image topic style td hc rd w).1 = .ok (some p, err)) :
    p = OUTPUT_DIR ++ "/linkedin_image_" ++ sanitizeTopic topic ++ "_" ++
        toString w.timestamp ++ ".png" ∧
    err = none ∧
    (∀ c ∈ (sanitizeTopic topic).data,
      (c.isAlphanum || c = ' ' || c = '-' || c = '_') = true) ∧
    (sanitizeTopic topic).length ≤ 50 ∧
    (∀ i, i < 50 →
      ((sanitizeTopic topic).data)[i]? =
        (topic.data[i]?.map fun c => if pyKeepChar c then c else '_')) := by
  rcases gen_ok_shape topic style td hc rd w _ h with ⟨m, hm⟩ | hs
  · cases hm
  · injection hs with h1 h2
    refine ⟨Option.some.inj h1, h2, ?_, ?_, ?_⟩
    · intro c hcmem
      simp only [sanitizeTopic, List.mem_map] at hcmem
      obtain ⟨c', _, rfl⟩ := hcmem
      by_cases hk : pyKeepChar c' = true
      · rw [if_pos hk]; exact hk
      · rw [if_neg hk]; decide
    · simp only [sanitizeTopic, String.length, List.length_map, List.length_take]
      omega
    · intro i hi
      simp [sanitizeTopic, List.getElem?_take_of_lt hi]

/-- Witness for C6 at a concrete successful run on a topic needing
sanitization. -/
theorem c6_witness :
    ("output/linkedin_image_AI _ Rec__" ++ "_" ++ toString wHappy.timestamp ++ ".png" : String) =
      OUTPUT_DIR ++ "/linkedin_image_" ++ sanitizeTopic "AI & Rec!!" ++ "_" ++
        toString wHappy.timestamp ++ ".png" ∧
    (none : Option String) = none ∧
    (∀ c ∈ (sanitizeTopic "AI & Rec!!").data,
      (c.isAlphanum || c = ' ' || c = '-' || c = '_') = true) ∧
    (sanitizeTopic "AI & Rec!!").length ≤ 50 ∧
    (∀ i, i < 50 →
      ((sanitizeTopic "AI & Rec!!").data)[i]? =
        (("AI & Rec!!" : String).data[i]?.map fun c => if pyKeepChar c then c else '_')) := by
  have base := c6_output_path "AI & Rec!!" "professional" none none none wHappy
    (outPath "AI & Rec!!" wHappy.timestamp) none rfl
  refine ⟨?_, base.2.1, base.2.2.1, base.2.2.2.1, base.2.2.2.2⟩
  rw [show sanitizeTopic "AI & Rec!!" = "AI _ Rec__" from rfl]
  rfl

/-- The scanning loop coincides with the specification-style search:
first part on which a strategy fires, image accessor before inline
data. -/
theorem extractLoop_eq_specSearch (ps : List Part) :
    extractLoop ps = specSearch ps := by
  induction ps with
  | nil => rfl
  | cons p rest ih =>
    cases ha : p.as_image with
    | some x =>
      cases x with
      | ok b => simp [extractLoop, specSearch, specTryPart, ha]
      | error e =>
        cases hi : p.inline_data with
        | none => simp [extractLoop, specSearch, specTryPart, ha, hi, ih]
        | some blob =>
          cases hd : (if pyTruthy blob.data then blob.data else blob.image_bytes) with
          | none => simp [extractLoop, specSearch, specTryPart, ha, hi, hd, ih]
          | some d =>
            cases ht : pyDataTruthy d with
            | false => simp [extractLoop, specSearch, specTryPart, ha, hi, hd, ht, ih]
            | true =>
              cases hdec : decodeData d with
              | ok b =>
                simp [extractLoop, specSearch, specTryPart, ha, hi, hd, ht, hdec, Except.map]
              | error e2 =>
                simp [extractLoop, specSearch, specTryPart, ha, hi, hd, ht, hdec, Except.map]
    | none =>
      cases hi : p.inline_data with
      | none => simp [extractLoop, specSearch, specTryPart, ha, hi, ih]
      | some blob =>
        cases hd : (if pyTruthy blob.data then blob.data else blob.image_bytes) with
        | none => simp [extractLoop, specSearch, specTryPart, ha, hi, hd, ih]
        | some d =>
          cases ht : pyDataTruthy d with
          | false => simp [extractLoop, specSearch, specTryPart, ha, hi, hd, ht, ih]
          | true =>
            cases hdec : decodeData d with
            | ok b =>
              simp [extractLoop, specSearch, specTryPart, ha, hi, hd, ht, hdec, Except.map]
            | error e2 =>
              simp [extractLoop, specSearch, specTryPart, ha, hi, hd, ht, hdec, Except.map]

/-- When the scan over the selected parts yields nothing, the call
returns the no-image error pair. -/
theorem gen_no_image (topic style : String) (td hc rd : Option String)
    (w : World) (refs : List RGBImage) (resp : Response)
    (h : reachesRemote topic style td hc rd w refs resp)
    (hx : extractLoop (partsOf resp) = .ok none) :
    (generate_post_image topic style td hc rd w).1 =
      .ok (none, some "No image in Gemini response") := by
  rw [gen_after_remote topic style td hc rd w refs resp h]
  simp [decodePhase, hx, bytesTruthy]

/-- Claim C3: the decoder searches the flat parts list first, else the
first candidate's content parts; per part it tries the image accessor
before inline data; it stops at the first part that yields bytes; and
when nothing yields bytes the call returns the no-image error pair. -/
theorem c3_response_decoding :
    (∀ (resp : Response) (ps : List Part), resp.parts = some ps → partsOf resp = ps) ∧
    (∀ (resp : Response) (cand : Candidate) (rest : List Candidate)
        (con : Content) (ps : List Part),
      resp.parts = none → resp.candidates = some (cand :: rest) →
      cand.content = some con → con.parts = some ps → partsOf resp = ps) ∧
    (∀ ps : List Part, extractLoop ps = specSearch ps) ∧
    (∀ (p : Part) (rest : List Part) (b : List Nat),
      p.as_image = some (.ok b) → extractLoop (p :: rest) = .ok (some b)) ∧
    (∀ (p : Part) (rest : List Part) (blob : Blob) (d : PyData) (b : List Nat),
      (p.as_image = none ∨ ∃ e, p.as_image = some (.error e)) →
      p.inline_data = some blob →
      (if pyTruthy blob.data then blob.data else blob.image_bytes) = some d →
      pyDataTruthy d = true → decodeData d = .ok b →
      extractLoop (p :: rest) = .ok (some b)) ∧
    (∀ (p : Part) (rest : List Part),
      specTryPart p = .ok none → extractLoop (p :: rest) = extractLoop rest) ∧
    (∀ (topic style : String) (td hc rd : Option String) (w : World)
        (refs : List RGBImage) (resp : Response),
      reachesRemote topic style td hc rd w refs resp →
      extractLoop (partsOf resp) = .ok none →
      (generate_post_image topic style td hc rd w).1 =
        .ok (none, some "No image in Gemini response")) := by
  refine ⟨?_, ?_, extractLoop_eq_specSearch, ?_, ?_, ?_, gen_no_image⟩
  · intro resp ps hps
    simp [partsOf, hps]
  · intro resp cand rest con ps h1 h2 h3 h4
    simp [partsOf, h1, h2, h3, h4]
  · intro p rest b ha
    simp [extractLoop, ha]
  · intro p rest blob d b ha hi hd ht hdec
    rcases ha with ha | ⟨e, ha⟩ <;>
      simp [extractLoop, ha, hi, hd, ht, hdec, Except.map]
  · intro p rest htry
    rw [extractLoop_eq_specSearch, extractLoop_eq_specSearch rest]
    simp [specSearch, htry]

/-- Witness for C3: the flat shape is selected, an image-accessor part
and an inline-data part each yield their bytes, and a partless response
produces the no-image error in a concrete run. -/
theorem c3_witness :
    partsOf respFlat = [imgPart] ∧
    extractLoop [imgPart] = .ok (some [137, 80, 78, 71]) ∧
    extractLoop [inlinePart] = .ok (some [1, 2, 3]) ∧
    extractLoop [deadPart, inlinePart] = extractLoop [inlinePart] ∧
    (generate_post_image "AI hiring" "professional" none none none wNoImg).1 =
      .ok (none, some "No image in Gemini response") := by
  refine ⟨c3_response_decoding.1 respFlat [imgPart] rfl,
    c3_response_decoding.2.2.2.1 imgPart [] [137, 80, 78, 71] rfl,
    c3_response_decoding.2.2.2.2.1 inlinePart [] ⟨some (.bytes [1, 2, 3]), none⟩
      (.bytes [1, 2, 3]) [1, 2, 3] (Or.inl rfl) rfl rfl rfl rfl,
    c3_response_decoding.2.2.2.2.2.1 deadPart [inlinePart] rfl,
    c3_response_decoding.2.2.2.2.2.2 "AI hiring" "professional" none none none wNoImg
      [] respNoImage ⟨by decide, rfl, rfl, rfl, rfl, rfl, rfl⟩ rfl⟩

/-- Claim C10: a present-but-empty flat parts list suppresses the
candidate-nested shape entirely, so image-bearing nested parts still end
in the no-image error pair. -/
theorem c10_flat_shape_wins (topic style : String) (td hc rd : Option String)
    (w : World) (refs : List RGBImage) (resp : Response)
    (cand : Candidate) (con : Content) (ps : List Part)
    (hreach : reachesRemote topic style td hc rd w refs resp)
    (hflat : resp.parts = some [])
    (hcand : resp.candidates = some [cand])
    (hcon : cand.content = some con)
    (hps : con.parts = some ps)
    (himg : ∃ p ∈ ps, ∃ b, specTryPart p = .ok (some b)) :
    (generate_post_image topic style td hc rd w).1 =
      .ok (none, some "No image in Gemini response") := by
  have hparts : partsOf resp = [] := by simp [partsOf, hflat]
  exact gen_no_image topic style td hc rd w refs resp hreach (by rw [hparts]; rfl)

/-- Witness for C10 at a concrete response with an empty flat list and a
usable nested part. -/
theorem c10_witness :
    (generate_post_image "AI hiring" "professional" none none none wNested).1 =
      .ok (none, some "No image in Gemini response") :=
  c10_flat_shape_wins "AI hiring" "professional" none none none wNested
    [] respEmptyFlat ⟨some ⟨some [imgPart]⟩⟩ ⟨some [imgPart]⟩ [imgPart]
    ⟨by decide, rfl, rfl, rfl, rfl, rfl, rfl⟩ rfl rfl rfl rfl
    ⟨imgPart, by simp, [137, 80, 78, 71], rfl⟩

/-- The head surviving a `dropWhile` fails the predicate. -/
theorem dropWhile_head_false (p : Char → Bool) (l : List Char) (x : Char)
    (xs : List Char) (h : l.dropWhile p = x :: xs) : p x = false := by
  induction l with
  | nil => cases h
  | cons c cs ih =>
    by_cases hp : p c = true
    · rw [List.dropWhile_cons_of_pos hp] at h; exact ih h
    · rw [List.dropWhile_cons_of_neg hp] at h
      injection h with h1 h2
      subst h1
      exact Bool.not_eq_true _ |>.mp hp

/-- Scanning an all-whitespace tail with an empty accumulator produces
no tokens. -/
theorem splitAux_spaces_nil (cs : List Char)
    (h : ∀ c ∈ cs, pyIsSpace c = true) : splitAux cs [] = [] := by
  induction cs with
  | nil => rfl
  | cons c cs ih =>
    have hc := h c (by simp)
    simp only [splitAux, hc, if_true]
    exact ih fun c' hc' => h c' (by simp [hc'])

/-- A non-empty accumulator guarantees at least one token. -/
theorem splitAux_ne_nil_of_cur (cs : List Char) :
    ∀ cur : List Char, cur ≠ [] → splitAux cs cur ≠ [] := by
  induction cs with
  | nil =>
    intro cur hcur
    cases cur with
    | nil => exact absurd rfl hcur
    | cons a as => simp [splitAux]
  | cons c cs ih =>
    intro cur hcur
    by_cases hc : pyIsSpace c = true
    · cases cur with
      | nil => exact absurd rfl hcur
      | cons a as => simp [splitAux, hc]
    · rw [Bool.not_eq_true] at hc
      simp only [splitAux, hc, Bool.false_eq_true, if_false]
      exact ih (c :: cur) (by simp)

/-- A non-whitespace character somewhere in the input guarantees at
least one token. -/
theorem splitAux_ne_nil_of_char (cs : List Char) :
    ∀ cur x, x ∈ cs → pyIsSpace x = false → splitAux cs cur ≠ [] := by
  induction cs with
  | nil => intro cur x hx; cases hx
  | cons c cs ih =>
    intro cur x hx hns
    by_cases hc : pyIsSpace c = true
    · have hxc : x ∈ cs := by
        rcases List.mem_cons.mp hx with rfl | hmem
        · rw [hc] at hns; cases hns
        · exact hmem
      cases cur with
      | nil =>
        simp only [splitAux, hc, if_true]
        exact ih [] x hxc hns
      | cons a as => simp [splitAux, hc]
    · rw [Bool.not_eq_true] at hc
      simp only [splitAux, hc, Bool.false_eq_true, if_false]
      exact splitAux_ne_nil_of_cur cs (c :: cur) (by simp)

/-- Every token produced by the scan is non-empty and free of
whitespace, provided the accumulator is. -/
theorem splitAux_tokens_good (cs : List Char) :
    ∀ cur, (∀ c ∈ cur, pyIsSpace c = false) →
    ∀ t ∈ splitAux cs cur, t ≠ "" ∧ ∀ c ∈ t.data, pyIsSpace c = false := by
  induction cs with
  | nil =>
    intro cur hcur t ht
    cases cur with
    | nil => cases ht
    | cons a as =>
      simp only [splitAux, List.mem_singleton] at ht
      subst ht
      constructor
      · intro hcon
        have : (a :: as).reverse = [] := by
          have := congrArg String.data hcon
          simpa using this
        simp at this
      · intro c hcmem
        exact hcur c (List.mem_reverse.mp hcmem)
  | cons c cs ih =>
    intro cur hcur t ht
    by_cases hc : pyIsSpace c = true
    · cases cur with
      | nil =>
        simp only [splitAux, hc, if_true] at ht
        exact ih [] (by simp) t ht
      | cons a as =>
        simp only [splitAux, hc, if_true, List.mem_cons] at ht
        rcases ht with rfl | ht
        · constructor
          · intro hcon
            have : (a :: as).reverse = [] := by
              have := congrArg String.data hcon
              simpa using this
            simp at this
          · intro c' hcmem
            exact hcur c' (List.mem_reverse.mp hcmem)
        · exact ih [] (by simp) t ht
    · rw [Bool.not_eq_true] at hc
      simp only [splitAux, hc, Bool.false_eq_true, if_false] at ht
      refine ih (c :: cur) ?_ t ht
      intro c' hc'
      rcases List.mem_cons.mp hc' with rfl | hmem
      · exact hc
      · exact hcur c' hmem

/-- Scanning a whitespace-free block shifts it wholesale into the
accumulator. -/
theorem splitAux_block (t : List Char) :
    ∀ (rest cur : List Char), (∀ c ∈ t, pyIsSpace c = false) →
    splitAux (t ++ rest) cur = splitAux rest (t.reverse ++ cur) := by
  induction t with
  | nil => intro rest cur h; simp
  | cons c t' ih =>
    intro rest cur h
    have hc : pyIsSpace c = false := h c (by simp)
    simp only [List.cons_append, splitAux, hc, Bool.false_eq_true, if_false]
    have hih := ih rest (c :: cur) fun c' hc' => h c' (by simp [hc'])
    rw [show ((c :: t').reverse ++ cur) = t'.reverse ++ (c :: cur) by simp]
    exact hih

/-- A space flushes a non-empty accumulator as one token. -/
theorem splitAux_flush (rest : List Char) (a : Char) (as : List Char) :
    splitAux (' ' :: rest) (a :: as) =
      String.mk (a :: as).reverse :: splitAux rest [] := by
  simp [splitAux, show pyIsSpace ' ' = true from rfl]

/-- Trailing whitespace does not change the tokens. -/
theorem splitAux_append_spaces (ws : List Char)
    (hws : ∀ c ∈ ws, pyIsSpace c = true) :
    ∀ (cs cur : List Char), splitAux (cs ++ ws) cur = splitAux cs cur := by
  intro cs
  induction cs with
  | nil =>
    intro cur
    cases cur with
    | nil => simpa using splitAux_spaces_nil ws hws
    | cons a as =>
      cases ws with
      | nil => simp
      | cons w ws' =>
        have hw : pyIsSpace w = true := hws w (by simp)
        simp only [List.nil_append, splitAux, hw, if_true]
        rw [splitAux_spaces_nil ws' fun c hc => hws c (by simp [hc])]
  | cons c cs ih =>
    intro cur
    by_cases hc : pyIsSpace c = true
    · cases cur with
      | nil => simp only [List.cons_append, splitAux, hc, if_true]; exact ih []
      | cons a as =>
        simp only [List.cons_append, splitAux, hc, if_true]
        exact congrArg (List.cons _) (ih [])
    · rw [Bool.not_eq_true] at hc
      simp only [List.cons_append, splitAux, hc, Bool.false_eq_true, if_false]
      exact ih (c :: cur)

/-- Leading whitespace does not change the tokens. -/
theorem splitAux_spaces_append (ws : List Char)
    (hws : ∀ c ∈ ws, pyIsSpace c = true) (cs : List Char) :
    splitAux (ws ++ cs) [] = splitAux cs [] := by
  induction ws with
  | nil => rfl
  | cons w ws' ih =>
    have hw : pyIsSpace w = true := hws w (by simp)
    simp only [List.cons_append, splitAux, hw, if_true]
    exact ih fun c hc => hws c (by simp [hc])

/-- Stripping does not change the tokens: `s.strip().split() == s.split()`. -/
theorem pySplit_strip (s : String) : pySplit (pyStrip s) = pySplit s := by
  unfold pySplit pyStrip
  have hdata : (String.mk (((s.data.dropWhile pyIsSpace).reverse.dropWhile
      pyIsSpace).reverse)).data =
      ((s.data.dropWhile pyIsSpace).reverse.dropWhile pyIsSpace).reverse := rfl
  rw [hdata]
  set l1 := s.data.dropWhile pyIsSpace with hl1
  have hsplit1 : splitAux s.data [] = splitAux l1 [] := by
    conv_lhs => rw [← List.takeWhile_append_dropWhile (p := pyIsSpace) (l := s.data)]
    exact splitAux_spaces_append _ (fun c hc => List.mem_takeWhile_imp hc) _
  rw [hsplit1]
  have hdecomp : l1 = (l1.reverse.dropWhile pyIsSpace).reverse ++
      (l1.reverse.takeWhile pyIsSpace).reverse := by
    conv_lhs => rw [← List.reverse_reverse l1]
    rw [← List.reverse_append, List.takeWhile_append_dropWhile]
  conv_rhs => rw [hdecomp]
  rw [splitAux_append_spaces _ (fun c hc => List.mem_takeWhile_imp
    (by simpa using hc))]

/-- Joining whitespace-free non-empty tokens with single spaces and
re-splitting recovers exactly the tokens. -/
theorem pySplit_join (ts : List String)
    (hgood : ∀ t ∈ ts, t ≠ "" ∧ ∀ c ∈ t.data, pyIsSpace c = false)
    (hne : ts ≠ []) : pySplit (joinSpace ts) = ts := by
  induction ts with
  | nil => exact absurd rfl hne
  | cons t ts' ih =>
    obtain ⟨hte, htc⟩ := hgood t (by simp)
    have hdata_ne : t.data ≠ [] := fun hdn => hte (String.ext hdn)
    have hrev_ne : t.data.reverse ≠ [] :=
      fun hr => hdata_ne (List.reverse_eq_nil_iff.mp hr)
    obtain ⟨a, as, hcur⟩ := List.exists_cons_of_ne_nil hrev_ne
    cases ts' with
    | nil =>
      show splitAux (joinSpace [t]).data [] = [t]
      have : (joinSpace [t]).data = t.data ++ [] := by simp [joinSpace]
      rw [this, splitAux_block t.data [] [] htc, List.append_nil, hcur]
      show [String.mk (a :: as).reverse] = [t]
      rw [← hcur, List.reverse_reverse]
    | cons t2 ts'' =>
      have hjdata : (joinSpace (t :: t2 :: ts'')).data =
          t.data ++ (' ' :: (joinSpace (t2 :: ts'')).data) := by
        show (t ++ " " ++ joinSpace (t2 :: ts'')).data = _
        simp [String.data_append]
      show splitAux (joinSpace (t :: t2 :: ts'')).data [] = t :: t2 :: ts''
      rw [hjdata, splitAux_block t.data _ [] htc, List.append_nil, hcur,
        splitAux_flush, ← hcur, List.reverse_reverse]
      have hrest := ih (fun u hu => hgood u (by simp [hu])) (by simp)
      show t :: splitAux (joinSpace (t2 :: ts'')).data [] = t :: t2 :: ts''
      rw [show splitAux (joinSpace (t2 :: ts'')).data [] =
        pySplit (joinSpace (t2 :: ts'')) from rfl, hrest]

/-- Joining a list headed by a non-empty token is non-empty. -/
theorem joinSpace_ne_empty (t : String) (ts : List String) (h : t ≠ "") :
    joinSpace (t :: ts) ≠ "" := by
  cases ts with
  | nil => exact h
  | cons t2 ts' =>
    intro hcon
    have hd : (joinSpace (t :: t2 :: ts')).data = [] := by rw [hcon]
    rw [show joinSpace (t :: t2 :: ts') = t ++ " " ++ joinSpace (t2 :: ts') from rfl] at hd
    simp only [String.data_append] at hd
    rcases List.append_eq_nil.mp hd with ⟨h1, -⟩
    rcases List.append_eq_nil.mp h1 with ⟨-, h2⟩
    exact absurd h2 (by decide)

/-- A string whose characters are all whitespace strips to empty. -/
theorem pyStrip_eq_empty (s : String)
    (h : ∀ c ∈ s.data, pyIsSpace c = true) : pyStrip s = "" := by
  unfold pyStrip
  have : s.data.dropWhile pyIsSpace = [] := List.dropWhile_eq_nil_iff.mpr h
  rw [this]
  rfl

/-- A string that does not strip to empty contains a non-whitespace
character. -/
theorem exists_nonspace_of_strip_ne (s : String) (h : pyStrip s ≠ "") :
    ∃ c ∈ s.data, pyIsSpace c = false := by
  by_contra hcon
  push_neg at hcon
  exact h (pyStrip_eq_empty s fun c hc =>
    Bool.not_eq_false _ |>.mp (hcon c hc))

/-- Splitting a string that does not strip to empty yields at least one
token. -/
theorem pySplit_ne_nil (s : String) (h : pyStrip s ≠ "") :
    pySplit s ≠ [] := by
  obtain ⟨c, hc, hns⟩ := exists_nonspace_of_strip_ne s h
  exact splitAux_ne_nil_of_char s.data [] c hc hns

/-- Claim C4, as stated, is false: `hero_copy = " "` is a non-empty
string, yet the derived headline falls back to the topic, whose tokens
are not a prefix of the (empty) token list of `" "`. -/
theorem c4_counterexample :
    (" " : String) ≠ "" ∧
    ¬ (pySplit (deriveHeadline "hello" (some " ")) =
        (pySplit " ").take (pySplit (deriveHeadline "hello" (some " "))).length) := by
  constructor
  · decide
  · decide

/-- Claim C4 (amended): for every `hero_copy` containing a
non-whitespace character the headline has at most 10 tokens forming a
prefix of `hero_copy`'s tokens; when `hero_copy` is absent, empty or
whitespace-only the headline is the first 8 tokens of `topic` joined by
single spaces. -/
theorem c4_headline_tokens :
    (∀ (topic hc : String), pyStrip hc ≠ "" →
      (pySplit (deriveHeadline topic (some hc))).length ≤ 10 ∧
      pySplit (deriveHeadline topic (some hc)) =
        (pySplit hc).take (pySplit (deriveHeadline topic (some hc))).length) ∧
    (∀ topic : String,
      deriveHeadline topic none = joinSpace ((pySplit topic).take 8)) ∧
    (∀ (topic hc : String), pyStrip hc = "" →
      deriveHeadline topic (some hc) = joinSpace ((pySplit topic).take 8)) := by
  refine ⟨?_, ?_, ?_⟩
  · intro topic hc hstrip
    have hne : hc ≠ "" := fun h => hstrip (by rw [h]; rfl)
    have hT : pySplit hc ≠ [] := pySplit_ne_nil hc hstrip
    obtain ⟨t0, T', hT0⟩ := List.exists_cons_of_ne_nil hT
    have hgoodT : ∀ t ∈ pySplit hc, t ≠ "" ∧ ∀ c ∈ t.data, pyIsSpace c = false :=
      fun t ht => splitAux_tokens_good hc.data [] (by simp) t ht
    have hHne : joinSpace ((pySplit hc).take 10) ≠ "" := by
      rw [hT0, List.take_succ_cons]
      exact joinSpace_ne_empty t0 _ (hgoodT t0 (by rw [hT0]; simp)).1
    have hcond : (¬hc = "" ∧ ¬pyStrip hc = "") := ⟨hne, hstrip⟩
    have hH : deriveHeadline topic (some hc) = joinSpace ((pySplit hc).take 10) := by
      simp only [deriveHeadline, pySplit_strip]
      rw [if_pos hcond, if_neg hHne]
    rw [hH, pySplit_join _ (fun t ht => hgoodT t (List.mem_of_mem_take ht))
      (by rw [hT0, List.take_succ_cons]; simp)]
    constructor
    · simp [List.length_take]
    · rw [List.length_take]
      exact List.take_eq_take.mpr (by omega)
  · intro topic
    simp [deriveHeadline, pySplit_strip]
  · intro topic hc hstrip
    have hcond : ¬(¬hc = "" ∧ ¬pyStrip hc = "") := fun hand => hand.2 hstrip
    simp only [deriveHeadline, pySplit_strip]
    rw [if_neg hcond]
    simp

/-- Witness for C4 (amended) at a concrete twelve-word hero copy. -/
theorem c4_witness :
    (pySplit (deriveHeadline "topic" (some "one two three four five six seven eight nine ten eleven twelve"))).length ≤ 10 ∧
    pySplit (deriveHeadline "topic" (some "one two three four five six seven eight nine ten eleven twelve")) =
      (pySplit "one two three four five six seven eight nine ten eleven twelve").take
        (pySplit (deriveHeadline "topic" (some "one two three four five six seven eight nine ten eleven twelve"))).length :=
  c4_headline_tokens.1 "topic" "one two three four five six seven eight nine ten eleven twelve"
    (by decide)

/-- Claim C8, as stated, is false: the whitespace-only topic `" "` is a
non-empty string, yet with no hero copy the derived headline is empty. -/
theorem c8_counterexample :
    (" " : String) ≠ "" ∧ deriveHeadline " " none = "" := by
  constructor
  · decide
  · rfl

/-- Claim C8 (amended): whenever `topic` contains a non-whitespace
character, the derived headline is non-empty, whatever `hero_copy`
is. -/
theorem c8_headline_nonempty (topic : String) (hc : Option String)
    (h : pyStrip topic ≠ "") : deriveHeadline topic hc ≠ "" := by
  simp only [deriveHeadline]
  split
  · have hT : pySplit topic ≠ [] := pySplit_ne_nil topic h
    obtain ⟨t0, T', hT0⟩ := List.exists_cons_of_ne_nil hT
    rw [pySplit_strip, hT0, List.take_succ_cons]
    exact joinSpace_ne_empty t0 _
      ((splitAux_tokens_good topic.data [] (by simp) t0 (by rw [show splitAux topic.data [] = pySplit topic from rfl, hT0]; simp)).1)
  · assumption

/-- Witness for C8 (amended) at a concrete topic. -/
theorem c8_witness : deriveHeadline "AI hiring trends" none ≠ "" :=
  c8_headline_nonempty "AI hiring trends" none (by decide)

/-- Inserting into the descending sort permutes a cons. -/
theorem insertDesc_perm (x : FileEntry) (l : List FileEntry) :
    List.Perm (insertDesc x l) (x :: l) := by
  induction l with
  | nil => exact List.Perm.refl _
  | cons g gs ih =>
    by_cases hlt : x.mtime < g.mtime
    · simp only [insertDesc, hlt, if_pos]
      exact (ih.cons g).trans (List.Perm.swap x g gs)
    · simp only [insertDesc, hlt, if_neg, if_false]
      exact List.Perm.refl _

/-- The sort permutes its input. -/
theorem sortByMtimeDesc_perm (l : List FileEntry) :
    List.Perm (sortByMtimeDesc l) l := by
  induction l with
  | nil => exact List.Perm.refl _
  | cons x xs ih => exact (insertDesc_perm x (sortByMtimeDesc xs)).trans (ih.cons x)

/-- Insertion preserves the descending-mtime invariant. -/
theorem insertDesc_pairwise (x : FileEntry) (l : List FileEntry)
    (h : l.Pairwise fun a b => b.mtime ≤ a.mtime) :
    (insertDesc x l).Pairwise fun a b => b.mtime ≤ a.mtime := by
  induction l with
  | nil => simp [insertDesc]
  | cons g gs ih =>
    rw [List.pairwise_cons] at h
    obtain ⟨h1, h2⟩ := h
    by_cases hlt : x.mtime < g.mtime
    · simp only [insertDesc, hlt, if_pos]
      refine List.pairwise_cons.mpr ⟨?_, ih h2⟩
      intro b hb
      rcases List.mem_cons.mp ((insertDesc_perm x gs).mem_iff.mp hb) with rfl | hmem
      · omega
      · exact h1 b hmem
    · simp only [insertDesc, hlt, if_neg, if_false]
      refine List.pairwise_cons.mpr ⟨?_, List.pairwise_cons.mpr ⟨h1, h2⟩⟩
      intro b hb
      rcases List.mem_cons.mp hb with rfl | hmem
      · omega
      · have := h1 b hmem; omega

/-- The sorted listing is descending in mtime. -/
theorem sortByMtimeDesc_pairwise (l : List FileEntry) :
    (sortByMtimeDesc l).Pairwise fun a b => b.mtime ≤ a.mtime := by
  induction l with
  | nil => simp [sortByMtimeDesc]
  | cons x xs ih => exact insertDesc_pairwise x (sortByMtimeDesc xs) ih

/-- Claim C5: the loader returns at most 2 decoded images; every
returned image comes from a supported file in the directory with at most
one supported file strictly more recent than it; a missing directory or
missing decode capability yields the empty sequence without error; and
a per-file decode failure never suppresses the other successful
decodes. -/
theorem c5_reference_images :
    (∀ (dir : RefDirState) (pil : Bool) (refs : List RGBImage),
      loadReferenceImages dir pil 2 = .ok refs → refs.length ≤ 2) ∧
    (∀ (entries : List FileEntry) (refs : List RGBImage),
      loadReferenceImages (.present entries) true 2 = .ok refs →
      ∀ img ∈ refs, ∃ f ∈ entries, supportedExt f.name = true ∧
        f.decodesTo = .ok img ∧
        (entries.filter fun g =>
          supportedExt g.name && decide (f.mtime < g.mtime)).length ≤ 1) ∧
    (∀ pil : Bool, loadReferenceImages .absent pil 2 = .ok []) ∧
    (∀ dir : RefDirState, loadReferenceImages dir false 2 = .ok []) ∧
    (∀ (entries : List FileEntry) (refs : List RGBImage) (f : FileEntry)
        (img : RGBImage),
      loadReferenceImages (.present entries) true 2 = .ok refs →
      f ∈ (sortByMtimeDesc (entries.filter fun g => supportedExt g.name)).take 2 →
      f.decodesTo = .ok img → img ∈ refs) := by
  refine ⟨?_, ?_, ?_, ?_, ?_⟩
  · intro dir pil refs h
    cases dir with
    | absent =>
      simp only [loadReferenceImages, Except.ok.injEq] at h
      subst h; simp
    | raises e =>
      cases pil
      · simp only [loadReferenceImages, Bool.false_eq_true, if_false,
          Except.ok.injEq] at h
        subst h; simp
      · simp only [loadReferenceImages, if_true] at h
        cases h
    | present entries =>
      cases pil
      · simp only [loadReferenceImages, Bool.false_eq_true, if_false,
          Except.ok.injEq] at h
        subst h; simp
      · simp only [loadReferenceImages, if_true, Except.ok.injEq] at h
        rw [← h]
        exact le_trans (List.length_filterMap_le _ _) (by simp [List.length_take])
  · intro entries refs h img himg
    simp only [loadReferenceImages, if_true, Except.ok.injEq] at h
    subst h
    obtain ⟨f, hfmem_take, hfdec⟩ := List.mem_filterMap.mp himg
    have hdec : f.decodesTo = .ok img := by
      cases hd : f.decodesTo with
      | error e => rw [hd] at hfdec; cases hfdec
      | ok v => rw [hd] at hfdec; cases hfdec; rfl
    set S := sortByMtimeDesc (entries.filter fun g => supportedExt g.name) with hS
    have hfS : f ∈ S := List.mem_of_mem_take hfmem_take
    have hfFilter : f ∈ entries.filter fun g => supportedExt g.name :=
      (sortByMtimeDesc_perm _).mem_iff.mp hfS
    obtain ⟨hfent, hfsup⟩ := List.mem_filter.mp hfFilter
    refine ⟨f, hfent, hfsup, hdec, ?_⟩
    obtain ⟨i, hilt, hgeti⟩ := List.mem_iff_getElem.mp hfmem_take
    have hi2 : i < 2 := lt_of_lt_of_le hilt (by simp [List.length_take])
    have hiS : i < S.length := by
      have := hilt; rw [List.length_take] at this; omega
    have hSi : S[i] = f := by rw [← hgeti]; simp
    have hpw := sortByMtimeDesc_pairwise (entries.filter fun g => supportedExt g.name)
    rw [← hS] at hpw
    have hdrop : (S.drop i).countP (fun g => decide (f.mtime < g.mtime)) = 0 := by
      rw [List.countP_eq_zero]
      intro g hgmem
      obtain ⟨j, hjlt, hgj⟩ := List.mem_iff_getElem.mp hgmem
      have hj' : i + j < S.length := by
        have := hjlt; rw [List.length_drop] at this; omega
      have hgval : S[i + j] = g := by rw [← hgj]; simp
      rcases Nat.eq_zero_or_pos j with rfl | hjpos
      · have hgf : g = f := by
          rw [← hgval]
          simpa using hSi
        subst hgf
        simp
      · have hrel := List.pairwise_iff_getElem.mp hpw i (i + j) hiS hj' (by omega)
        rw [hSi, hgval] at hrel
        simp only [decide_eq_true_eq]
        omega
    have hcount : S.countP (fun g => decide (f.mtime < g.mtime)) ≤ 1 := by
      conv_lhs => rw [← List.take_append_drop i S]
      rw [List.countP_append, hdrop]
      have := List.countP_le_length
        (p := fun g => decide (f.mtime < g.mtime)) (l := S.take i)
      rw [List.length_take] at this
      omega
    calc (entries.filter fun g =>
            supportedExt g.name && decide (f.mtime < g.mtime)).length
        = entries.countP (fun g => supportedExt g.name && decide (f.mtime < g.mtime)) :=
          (List.countP_eq_length_filter _ _).symm
      _ = entries.countP (fun g => decide (f.mtime < g.mtime) && supportedExt g.name) := by
          have : (fun (g : FileEntry) => supportedExt g.name && decide (f.mtime < g.mtime)) =
              fun g => decide (f.mtime < g.mtime) && supportedExt g.name :=
            funext fun g => Bool.and_comm _ _
          rw [this]
      _ = (entries.filter fun g => supportedExt g.name).countP
            (fun g => decide (f.mtime < g.mtime)) := (List.countP_filter _ _ _).symm
      _ = S.countP (fun g => decide (f.mtime < g.mtime)) :=
          ((sortByMtimeDesc_perm _).countP_eq _).symm
      _ ≤ 1 := hcount
  · intro pil; rfl
  · intro dir; cases dir <;> rfl
  · intro entries refs f img h hf hdec
    simp only [loadReferenceImages, if_true, Except.ok.injEq] at h
    subst h
    exact List.mem_filterMap.mpr ⟨f, hf, by rw [hdec]; rfl⟩

/-- Witness for C5 on a concrete directory: a fresh PNG that decodes, an
older JPEG whose decode raises, and a newer unsupported file. -/
theorem c5_witness :
    (∀ refs, loadReferenceImages (.present [entA, entB, entC]) true 2 = .ok refs →
      refs.length ≤ 2) ∧
    loadReferenceImages .absent true 2 = .ok [] ∧
    loadReferenceImages (.present [entA, entB, entC]) false 2 = .ok [] ∧
    (1 : RGBImage) ∈ [(1 : RGBImage)] := by
  refine ⟨fun refs h => c5_reference_images.1 _ true refs h,
    c5_reference_images.2.2.1 true,
    c5_reference_images.2.2.2.1 (.present [entA, entB, entC]),
    ?_⟩
  have := c5_reference_images.2.2.2.2 [entA, entB, entC] [1] entA 1 rfl
    (by decide) rfl
  simpa using this

end ImageGen
